import Mathlib

/-!
Shallow embedding of the lending-visualization dashboard and proofs about its
specified behaviour.

Embedded sources:
* `src/types/transaction.ts` — the `Transaction` record and its closed
  categorical sets (`ActionType`, `Network`, `Asset`);
* `src/services/allium/transform.ts` — mapping of raw Allium lending events to
  `Transaction` values (`mapAction`, `mapNetwork`, `mapAsset`, `generateId`,
  `formatProtocol`, `transformEvent`, `transformEvents`);
* `src/services/allium/client.ts` — `executeQuery` with its bounded
  retry/backoff behaviour, modelled against an oracle of HTTP responses;
* `src/data/mockTransactions.ts` — the synthetic transaction generator,
  modelled over explicit random draws;
* `src/hooks/useLendingData.ts` — the drip sequencer (static-dataset variant):
  pending slot, displayed list, `commitTransaction`, `getNextTransaction`;
* `src/components/OrbitingDot.tsx` — the settling-phase effect with its
  `hasSettledRef` completion guard.

JavaScript `number`s are modelled as `Rat`; `Date` values are modelled by
their construction source (`new Date(string)` vs `Date.now()` milliseconds).
-/

namespace LendingViz

/-- Closed set of lending actions (`src/types/transaction.ts`). -/
inductive ActionType where
  | supply
  | borrow
  | repay
  | withdraw
  | liquidation
deriving DecidableEq, Inhabited

/-- Closed set of network tags (`src/types/transaction.ts`). -/
inductive Network where
  | Ethereum
  | Base
  | Arbitrum
  | Optimism
deriving DecidableEq, Inhabited

/-- Closed set of asset symbols.  The eight symbols of
`src/types/transaction.ts`, plus `PYUSD`, which the transform's symbol map in
`src/services/allium/transform.ts` produces as a value. -/
inductive Asset where
  | USDC
  | ETH
  | WBTC
  | DAI
  | USDT
  | WETH
  | cbETH
  | stETH
  | PYUSD
deriving DecidableEq, Inhabited

/-- A JavaScript `Date` value, tracked by how it was constructed. -/
inductive DateV where
  | fromString (s : String)
  | fromMillis (ms : Nat)
deriving DecidableEq, Inhabited

/-- The app's `Transaction` record (`src/types/transaction.ts`), with the
additional optional provenance fields set by the transform and the static
dataset (`transactionHash`, `protocol`, `dataSource`). -/
structure Transaction where
  id : String
  action : ActionType
  asset : Asset
  amount : Rat
  walletAddress : String
  network : Network
  timestamp : DateV
  apy : Option Rat := none
  marketName : Option String := none
  collateralAsset : Option Asset := none
  collateralAmount : Option Rat := none
  healthFactor : Option Rat := none
  transactionHash : Option String := none
  protocol : Option String := none
  dataSource : Option String := none
deriving DecidableEq, Inhabited

/-- A raw Allium lending event (`src/services/allium/types.ts`). -/
structure AlliumLendingEvent where
  action : String
  chain : String
  project : String
  token_symbol : String
  usd_amount : Rat
  wallet : String
  block_timestamp : String
  transaction_hash : String
deriving DecidableEq, Inhabited

/-! ## `src/services/allium/transform.ts` -/

/-- JavaScript `toLowerCase()` on ASCII strings: lowercase each character. -/
def jsToLower (s : String) : String :=
  ⟨s.data.map Char.toLower⟩

/-- JavaScript `toUpperCase()` on ASCII strings: uppercase each character. -/
def jsToUpper (s : String) : String :=
  ⟨s.data.map Char.toUpper⟩

/-- Source `mapAction`: lowercase lookup in the action map, defaulting to `supply`. -/
def mapAction (action : String) : ActionType :=
  let a := jsToLower action
  if a = "supply" then .supply
  else if a = "borrow" then .borrow
  else if a = "repay" then .repay
  else if a = "withdraw" then .withdraw
  else .supply

/-- Source `mapNetwork`: lowercase lookup in the network map, defaulting to
`Ethereum`. -/
def mapNetwork (chain : String) : Network :=
  let c := jsToLower chain
  if c = "ethereum" then .Ethereum
  else if c = "base" then .Base
  else if c = "arbitrum" then .Arbitrum
  else if c = "optimism" then .Optimism
  else .Ethereum

/-- Source `mapAsset`: uppercase lookup in the symbol map, defaulting to `USDC`. -/
def mapAsset (tokenSymbol : String) : Asset :=
  let symbol := jsToUpper tokenSymbol
  if symbol = "USDC" then .USDC
  else if symbol = "USDT" then .USDT
  else if symbol = "PYUSD" then .PYUSD
  else if symbol = "ETH" then .ETH
  else if symbol = "WETH" then .WETH
  else if symbol = "WBTC" then .WBTC
  else if symbol = "DAI" then .DAI
  else if symbol = "CBETH" then .cbETH
  else if symbol = "STETH" then .stETH
  else .USDC

/-- JavaScript `s.slice(-8)`: the last eight characters of `s` (the whole
string when it is shorter than eight characters). -/
def sliceLast8 (s : String) : String :=
  ⟨s.data.drop (s.data.length - 8)⟩

/-- Source `generateId`: id built from transaction hash, action, and the last eight
characters of the wallet address. -/
def generateId (event : AlliumLendingEvent) : String :=
  event.transaction_hash ++ "-" ++ event.action ++ "-" ++ sliceLast8 event.wallet

/-- JavaScript `word.charAt(0).toUpperCase() + word.slice(1).toLowerCase()`. -/
def capitalizeWord (w : String) : String :=
  match w.data with
  | [] => ""
  | c :: cs => ⟨c.toUpper :: cs.map Char.toLower⟩

/-- Source `formatProtocol`: `Unknown` for the empty string, otherwise capitalize
each `_`-separated word and join with spaces. -/
def formatProtocol (project : String) : String :=
  if project = "" then "Unknown"
  else String.intercalate " " ((project.splitOn "_").map capitalizeWord)

/-- Source `transformEvent`: one raw event to one `Transaction`. -/
def transformEvent (event : AlliumLendingEvent) : Transaction :=
  { id := generateId event
    action := mapAction event.action
    asset := mapAsset event.token_symbol
    amount := event.usd_amount
    walletAddress := event.wallet
    network := mapNetwork event.chain
    timestamp := .fromString event.block_timestamp
    marketName := some (formatProtocol event.project)
    transactionHash := some event.transaction_hash
    protocol := some event.project
    dataSource := some "allium" }

/-- Source `transformEvents`: elementwise transformation of a batch. -/
def transformEvents (events : List AlliumLendingEvent) : List Transaction :=
  events.map transformEvent

/-! ## `src/services/allium/client.ts` -/

/-- Source `MAX_RETRIES` (client.ts). -/
def MAX_RETRIES : Nat := 3

/-- Source `RETRY_DELAY_MS` (client.ts). -/
def RETRY_DELAY_MS : Nat := 1000

/-- The JSON body of a 2xx response: either a bare array or an object whose
`data` field may be absent. -/
inductive AlliumJson where
  | arr (events : List AlliumLendingEvent)
  | obj (data : Option (List AlliumLendingEvent))
deriving DecidableEq, Inhabited

/-- Source `Array.isArray(result) ? result : (result.data || [])`. -/
def extractData : AlliumJson → List AlliumLendingEvent
  | .arr events => events
  | .obj (some events) => events
  | .obj none => []

/-- Outcome of one `fetch` attempt: a 2xx response with a JSON body, a
non-2xx response with a status, an optional parsed `Retry-After` header and a
body text, or a thrown network error (`TypeError`). -/
inductive HttpResponse where
  | ok (body : AlliumJson)
  | err (status : Nat) (retryAfter : Option Nat) (body : String)
  | netError (msg : String)
deriving DecidableEq, Inhabited

/-- Source `AlliumResult` (types.ts): success with data, or failure with an error
message. -/
inductive AlliumResult where
  | success (data : List AlliumLendingEvent)
  | failure (error : String)
deriving DecidableEq, Inhabited

/-- The retry loop of `executeQuery`, starting at a given `retryCount` and
reading attempt `i`'s outcome from `responses i`.  Returns the result paired
with the list of sleep delays (in ms) performed before each re-attempt:
* 429 with retries left: delay `Retry-After * 1000` when the header is
  present, else `RETRY_DELAY_MS * (retryCount + 1)`, then recurse;
* status ≥ 500 with retries left: delay `RETRY_DELAY_MS * (retryCount + 1)`,
  then recurse;
* other non-2xx: fail with the formatted error text;
* network error with retries left: delay and recurse, else fail. -/
def executeQueryFrom (responses : Nat → HttpResponse) (retryCount : Nat) :
    AlliumResult × List Nat :=
  match responses retryCount with
  | .ok body => (.success (extractData body), [])
  | .err status retryAfter bodyText =>
    if h : status = 429 ∧ retryCount < MAX_RETRIES then
      let delay := match retryAfter with
        | some ra => ra * 1000
        | none => RETRY_DELAY_MS * (retryCount + 1)
      let rest := executeQueryFrom responses (retryCount + 1)
      (rest.1, delay :: rest.2)
    else if h2 : 500 ≤ status ∧ retryCount < MAX_RETRIES then
      let rest := executeQueryFrom responses (retryCount + 1)
      (rest.1, RETRY_DELAY_MS * (retryCount + 1) :: rest.2)
    else
      (.failure ("Allium API error (" ++ toString status ++ "): " ++ bodyText), [])
  | .netError msg =>
    if h3 : retryCount < MAX_RETRIES then
      let rest := executeQueryFrom responses (retryCount + 1)
      (rest.1, RETRY_DELAY_MS * (retryCount + 1) :: rest.2)
    else
      (.failure msg, [])
termination_by MAX_RETRIES + 1 - retryCount
decreasing_by
  all_goals simp_all [MAX_RETRIES]; omega

/-- Source `executeQuery`: the missing-key early return (JavaScript falsiness: both
an absent key and the empty string fail the `if (!apiKey)` guard), then the
retry loop from `retryCount = 0`. -/
def executeQuery (apiKey : Option String) (responses : Nat → HttpResponse) :
    AlliumResult × List Nat :=
  match apiKey with
  | none =>
    (.failure "Allium API key not configured. Set VITE_ALLIUM_API_KEY in your environment.", [])
  | some k =>
    if k = "" then
      (.failure "Allium API key not configured. Set VITE_ALLIUM_API_KEY in your environment.", [])
    else
      executeQueryFrom responses 0

/-! ## `src/data/mockTransactions.ts` — synthetic generator -/

/-- Source `ACTIONS` (mockTransactions.ts). -/
def ACTIONS : List ActionType :=
  [.supply, .borrow, .repay, .withdraw, .liquidation]

/-- Source `NETWORKS` (mockTransactions.ts). -/
def NETWORKS : List Network :=
  [.Ethereum, .Base, .Arbitrum, .Optimism]

/-- Source `ASSETS` (mockTransactions.ts). -/
def ASSETS : List Asset :=
  [.USDC, .ETH, .WBTC, .DAI, .USDT, .WETH, .cbETH, .stETH]

/-- Source `MARKET_NAMES` (mockTransactions.ts). -/
def MARKET_NAMES : List String :=
  ["USDC/ETH (90% LLTV)",
   "WBTC/USDC (85% LLTV)",
   "ETH/DAI (86% LLTV)",
   "stETH/ETH (94.5% LLTV)",
   "cbETH/USDC (86% LLTV)"]

/-- JavaScript `Math.floor` on a nonnegative number, as a list index. -/
def natFloor (q : Rat) : Nat :=
  ⌊q⌋.toNat

/-- JavaScript `Math.round` (round half up) on a nonnegative number. -/
def jsRound (q : Rat) : Int :=
  ⌊q + 1 / 2⌋

/-- The `[min, max]` amount range configured per asset in `generateAmount`.
`PYUSD` has no entry in the source record (it is never selected there, since
`ASSETS` omits it); it is given the degenerate range `[0, 0]` here. -/
def amountRange : Asset → Rat × Rat
  | .USDC => (100, 500000)
  | .ETH => (0.1, 100)
  | .WBTC => (0.01, 10)
  | .DAI => (100, 500000)
  | .USDT => (100, 500000)
  | .WETH => (0.1, 100)
  | .cbETH => (0.1, 50)
  | .stETH => (0.1, 100)
  | .PYUSD => (0, 0)

/-- Source `generateAmount`: sample the asset's range uniformly from the draw
`r ∈ [0, 1)` and round to two decimals. -/
def generateAmount (asset : Asset) (r : Rat) : Rat :=
  let range := amountRange asset
  (jsRound ((r * (range.2 - range.1) + range.1) * 100) : Rat) / 100

/-- Source `generateAPY`. -/
def generateAPY (action : ActionType) (r : Rat) : Rat :=
  if action = .supply then (jsRound ((r * 8 + 1) * 100) : Rat) / 100
  else if action = .borrow then (jsRound ((r * 12 + 3) * 100) : Rat) / 100
  else (jsRound ((r * 10 + 2) * 100) : Rat) / 100

/-- Source `generateHealthFactor`. -/
def generateHealthFactor (r : Rat) : Rat :=
  (jsRound ((r * 2 + 1) * 100) : Rat) / 100

/-- Source `generateRandomHex`: one hex character per draw. -/
def generateRandomHex (draws : List Rat) : String :=
  ⟨draws.map (fun r => "0123456789abcdef".data.getD (natFloor (r * 16)) '0')⟩

/-- Source `generateWalletAddress`. -/
def generateWalletAddress (draws : List Rat) : String :=
  "0x" ++ generateRandomHex draws

/-- The random draws and clock reading consumed by one call of
`generateTransaction`, each draw standing for one `Math.random()` result. -/
structure MockDraws where
  rAction : Rat
  rAsset : Rat
  rNetwork : Rat
  idHexDraws : List Rat
  walletDraws : List Rat
  rAmount : Rat
  rApy : Rat
  rMarket : Rat
  rHealth : Rat
  rCollateral : Rat
  rCollAmount : Rat
  now : Nat

/-- Every `Math.random()` draw lies in `[0, 1)`. -/
def MockDraws.valid (d : MockDraws) : Prop :=
  0 ≤ d.rAction ∧ d.rAction < 1 ∧
  0 ≤ d.rAsset ∧ d.rAsset < 1 ∧
  0 ≤ d.rNetwork ∧ d.rNetwork < 1 ∧
  0 ≤ d.rAmount ∧ d.rAmount < 1 ∧
  0 ≤ d.rApy ∧ d.rApy < 1 ∧
  0 ≤ d.rMarket ∧ d.rMarket < 1 ∧
  0 ≤ d.rHealth ∧ d.rHealth < 1 ∧
  0 ≤ d.rCollateral ∧ d.rCollateral < 1 ∧
  0 ≤ d.rCollAmount ∧ d.rCollAmount < 1

/-- Source `generateTransaction`: uniform picks from the closed sets, an
asset-appropriate amount, derived APY / health factor, and collateral fields
attached only for the `liquidation` action. -/
def generateTransaction (d : MockDraws) : Transaction :=
  let action := ACTIONS.getD (natFloor (d.rAction * ACTIONS.length)) .supply
  let asset := ASSETS.getD (natFloor (d.rAsset * ASSETS.length)) .USDC
  let network := NETWORKS.getD (natFloor (d.rNetwork * NETWORKS.length)) .Ethereum
  let transaction : Transaction :=
    { id := "tx-" ++ toString d.now ++ "-" ++ generateRandomHex d.idHexDraws
      action := action
      asset := asset
      amount := generateAmount asset d.rAmount
      walletAddress := generateWalletAddress d.walletDraws
      network := network
      timestamp := .fromMillis d.now
      apy := some (generateAPY action d.rApy)
      marketName := some (MARKET_NAMES.getD (natFloor (d.rMarket * MARKET_NAMES.length)) "")
      healthFactor := some (generateHealthFactor d.rHealth) }
  if action = .liquidation then
    let collateralAssets := ASSETS.filter (fun a => a ≠ asset)
    let collateralAsset :=
      collateralAssets.getD (natFloor (d.rCollateral * collateralAssets.length)) .USDC
    { transaction with
      collateralAsset := some collateralAsset
      collateralAmount := some (generateAmount collateralAsset d.rCollAmount) }
  else
    transaction

/-! ## `src/hooks/useLendingData.ts` — drip sequencer (static-dataset variant) -/

/-- Source `MAX_DISPLAYED_TRANSACTIONS` (useLendingData.ts). -/
def MAX_DISPLAYED_TRANSACTIONS : Nat := 50

/-- Source `getNextTransaction`: read the record at the current index of the dataset,
advance the index cyclically, and reissue the record with a fresh id
(`tx-<now>-<rand>`) and a fresh timestamp.  Returns the reissued transaction
paired with the updated index. -/
def getNextTransaction (ds : List Transaction) (idx : Nat)
    (now : Nat) (randStr : String) : Transaction × Nat :=
  let transaction := ds.getD idx default
  ({ transaction with
      id := "tx-" ++ toString now ++ "-" ++ randStr
      timestamp := .fromMillis now },
   (idx + 1) % ds.length)

/-- The index held in `currentIndexRef` just before the k-th pull (starting
from 0 and advancing by `(i + 1) % ds.length` at each pull). -/
def pullIndex (ds : List Transaction) : Nat → Nat
  | 0 => 0
  | k + 1 => (pullIndex ds k + 1) % ds.length

/-- The hook's state: the pending slot, the displayed list, the
`readyForNext` flag, the cycling index, and a clock counting pulls (used to
feed fresh ids and timestamps).  `pulledLog` and `commitLog` are history
variables recording, in order, the transactions that entered the pending slot
and the transactions committed to the displayed list; they are write-only and
do not influence the dynamics. -/
structure DripState where
  pending : Option Transaction
  displayed : List Transaction
  readyForNext : Bool
  currentIndex : Nat
  clock : Nat
  pulledLog : List Transaction
  commitLog : List Transaction
deriving DecidableEq, Inhabited

/-- The hook's initial state. -/
def initDrip : DripState :=
  { pending := none
    displayed := []
    readyForNext := true
    currentIndex := 0
    clock := 0
    pulledLog := []
    commitLog := [] }

/-- One timer tick of the drip effect: when `readyForNext` holds and no
transaction is pending, pull the next transaction from the cycle and place it
in the pending slot; otherwise do nothing.  `fid` and `fts` supply the random
id suffix and the clock reading for the k-th pull. -/
def stepTick (ds : List Transaction) (fid : Nat → String) (fts : Nat → Nat)
    (s : DripState) : DripState :=
  if s.readyForNext ∧ s.pending = none then
    let pulled := getNextTransaction ds s.currentIndex (fts s.clock) (fid s.clock)
    { s with
      pending := some pulled.1
      readyForNext := false
      currentIndex := pulled.2
      clock := s.clock + 1
      pulledLog := s.pulledLog ++ [pulled.1] }
  else s

/-- Source `commitTransaction`: when a transaction is pending, prepend it to the
displayed list truncated to `MAX_DISPLAYED_TRANSACTIONS`, clear the pending
slot and set `readyForNext`; otherwise do nothing. -/
def stepCommit (s : DripState) : DripState :=
  match s.pending with
  | some tx =>
    { s with
      displayed := (tx :: s.displayed).take MAX_DISPLAYED_TRANSACTIONS
      pending := none
      readyForNext := true
      commitLog := s.commitLog ++ [tx] }
  | none => s

/-- An observable event of the sequencer: a drip-interval tick, or the
animation-completion commit signal. -/
inductive DripEvent where
  | tick
  | commit
deriving DecidableEq, Inhabited

/-- Apply one event. -/
def dripStep (ds : List Transaction) (fid : Nat → String) (fts : Nat → Nat)
    (s : DripState) : DripEvent → DripState
  | .tick => stepTick ds fid fts s
  | .commit => stepCommit s

/-- Run the sequencer from the initial state over a sequence of events. -/
def runDrip (ds : List Transaction) (fid : Nat → String) (fts : Nat → Nat)
    (es : List DripEvent) : DripState :=
  es.foldl (dripStep ds fid fts) initDrip

/-! ## `src/components/OrbitingDot.tsx` — settling effect -/

/-- State of the settling machinery of `OrbitingDot`: the `hasSettledRef`
guard, the live settle interval with its accumulated local `progress` (or
`none` when no interval is scheduled), and a count of `onSettled`
invocations (history variable). -/
structure SettleState where
  hasSettled : Bool
  intervalProgress : Option Rat
  settledCount : Nat
deriving DecidableEq, Inhabited

/-- Initial state on mount: `hasSettledRef.current = false`, no interval. -/
def initSettle : SettleState :=
  { hasSettled := false, intervalProgress := none, settledCount := 0 }

/-- An observable event of the settling effect:
* `effectSettling` — the effect body runs with `phase = settling`;
* `effectOther` — the effect cleanup runs with `phase ≠ settling` (the
  interval, if any, is cleared);
* `tick` — the scheduled interval fires. -/
inductive SettleEvent where
  | effectSettling
  | effectOther
  | tick
deriving DecidableEq, Inhabited

/-- One step of the settling machinery:
* effect run in the settling phase: only when `hasSettledRef` is unset, set
  it, clear any existing interval and start a fresh one with `progress = 0`;
* cleanup for a non-settling phase: clear the interval;
* interval tick: advance `progress` by `0.03`; on reaching `1`, clear the
  interval and invoke `onSettled` (counted). -/
def settleStep (s : SettleState) : SettleEvent → SettleState
  | .effectSettling =>
    if s.hasSettled then s
    else { s with hasSettled := true, intervalProgress := some 0 }
  | .effectOther => { s with intervalProgress := none }
  | .tick =>
    match s.intervalProgress with
    | none => s
    | some p =>
      let p1 := p + 0.03
      if 1 ≤ p1 then
        { s with intervalProgress := none, settledCount := s.settledCount + 1 }
      else
        { s with intervalProgress := some p1 }

/-- Run the settling machinery from the mount state. -/
def runSettle (es : List SettleEvent) : SettleState :=
  es.foldl settleStep initSettle

/-! ## Helper lemmas -/

/-- The fresh id string used by `getNextTransaction` (`tx-<now>-<rand>`). -/
def freshIdStr (now : Nat) (randStr : String) : String :=
  "tx-" ++ toString now ++ "-" ++ randStr

theorem take_cons_take {α : Type} (a : α) (l : List α) (n : Nat) :
    (a :: l.take n).take n = (a :: l).take n := by
  cases n with
  | zero => simp
  | succ m =>
    simp only [List.take_succ_cons, List.take_take]
    have hm : min m (m + 1) = m := by omega
    rw [hm]

theorem getD_mem_of_lt {α : Type} (l : List α) (i : Nat) (d : α)
    (h : i < l.length) : l.getD i d ∈ l := by
  induction l generalizing i with
  | nil => simp at h
  | cons x xs ih =>
    cases i with
    | zero => simp
    | succ n =>
      simp only [List.getD_cons_succ, List.mem_cons]
      exact Or.inr (ih n (by simpa using h))

theorem natFloor_lt (r : Rat) (n : Nat) (h0 : 0 ≤ r) (h1 : r < 1)
    (hn : 0 < n) : natFloor (r * n) < n := by
  have hnn : (0 : Rat) ≤ r * n := by positivity
  have hlt : r * n < n := by
    have : r * n < 1 * n := by
      apply mul_lt_mul_of_pos_right h1
      exact_mod_cast hn
    simpa using this
  have h2 : ⌊r * (n : Rat)⌋ < (n : Int) := Int.floor_lt.mpr (by exact_mod_cast hlt)
  have h3 : 0 ≤ ⌊r * (n : Rat)⌋ := Int.floor_nonneg.mpr hnn
  simp only [natFloor]
  omega

/-- Master invariant of the drip sequencer, for a given source of fresh id
suffixes and clock readings:
1. `readyForNext` holds exactly when the pending slot is empty;
2. the pull history equals the commit history followed by the pending item;
3. the displayed list is the most recent `MAX_DISPLAYED_TRANSACTIONS`
   committed transactions, newest first;
4. the ids of pulled transactions are exactly the fresh ids of pulls
   `0, 1, …, clock - 1`. -/
def DripInv (fid : Nat → String) (fts : Nat → Nat) (s : DripState) : Prop :=
  s.readyForNext = s.pending.isNone ∧
  s.pulledLog = s.commitLog ++ s.pending.toList ∧
  s.displayed = s.commitLog.reverse.take MAX_DISPLAYED_TRANSACTIONS ∧
  s.pulledLog.map Transaction.id =
    (List.range s.clock).map (fun k => freshIdStr (fts k) (fid k))

theorem dripInv_init (fid : Nat → String) (fts : Nat → Nat) :
    DripInv fid fts initDrip := by
  simp [DripInv, initDrip]

theorem dripInv_step (ds : List Transaction) (fid : Nat → String)
    (fts : Nat → Nat) (s : DripState) (e : DripEvent)
    (h : DripInv fid fts s) : DripInv fid fts (dripStep ds fid fts s e) := by
  obtain ⟨h1, h2, h3, h4⟩ := h
  cases e with
  | tick =>
    by_cases hc : s.readyForNext = true ∧ s.pending = none
    · obtain ⟨hr, hp⟩ := hc
      simp only [dripStep, stepTick, hr, hp, and_self, if_true, true_and]
      refine ⟨by simp, ?_, by simpa using h3, ?_⟩
      · simp only [Option.toList_some, hp, Option.toList_none, List.append_nil] at h2 ⊢
        simp [h2]
      · simp only [List.map_append, h4, List.range_succ, List.map_cons,
          List.map_nil, getNextTransaction, freshIdStr]
    · simp only [dripStep, stepTick]
      rw [if_neg (by simpa using hc)]
      exact ⟨h1, h2, h3, h4⟩
  | commit =>
    cases hp : s.pending with
    | none =>
      simp only [dripStep, stepCommit, hp]
      exact ⟨h1, h2, h3, h4⟩
    | some tx =>
      simp only [dripStep, stepCommit, hp]
      refine ⟨by simp, ?_, ?_, by simpa using h4⟩
      · simp only [hp, Option.toList_some] at h2
        simp [h2]
      · rw [h3, take_cons_take]
        simp [List.reverse_append]

theorem dripInv_run (ds : List Transaction) (fid : Nat → String)
    (fts : Nat → Nat) (es : List DripEvent) :
    DripInv fid fts (runDrip ds fid fts es) := by
  rw [runDrip]
  generalize hs : initDrip = s0
  have h0 : DripInv fid fts s0 := hs ▸ dripInv_init fid fts
  clear hs
  induction es generalizing s0 with
  | nil => exact h0
  | cons e es ih => exact ih _ (dripInv_step ds fid fts s0 e h0)

/-! ## Claim C1 — single-pending invariant -/

/-- C1.  Single-pending invariant: the pending slot holds at most one
transaction by construction (`Option`), a tick that arrives while a
transaction is pending is a no-op (it neither pulls from the cycle nor
replaces the pending item), and on every reachable state of the sequencer
`readyForNext` holds exactly when the slot is empty, so a new transaction is
admitted only after the pending one has been committed. -/
theorem drip_single_pending (ds : List Transaction) (fid : Nat → String)
    (fts : Nat → Nat) :
    (∀ (s : DripState) (tx : Transaction), s.pending = some tx →
      stepTick ds fid fts s = s) ∧
    (∀ es : List DripEvent,
      (runDrip ds fid fts es).readyForNext =
        (runDrip ds fid fts es).pending.isNone) := by
  constructor
  · intro s tx hp
    simp [stepTick, hp]
  · intro es
    exact (dripInv_run ds fid fts es).1

/-- Witness for C1: a concrete state with a pending transaction, on which a
tick is a no-op. -/
theorem drip_single_pending_witness :
    ({ initDrip with pending := some default } : DripState).pending =
        some default ∧
      stepTick [] (fun _ => "") (fun _ => 0)
          { initDrip with pending := some default } =
        { initDrip with pending := some default } :=
  ⟨rfl, (drip_single_pending [] (fun _ => "") (fun _ => 0)).1 _ default rfl⟩

/-! ## Claim C7 — FIFO commit ordering -/

/-- C7.  FIFO across the pending slot: after any event sequence, the history
of transactions that entered the pending slot equals the history of
transactions added to the displayed list (in commit order) followed by the
transaction still pending, if any.  Hence the k-th transaction to become
pending is the k-th one committed, with no reordering. -/
theorem fifo_commit_order (ds : List Transaction) (fid : Nat → String)
    (fts : Nat → Nat) (es : List DripEvent) :
    (runDrip ds fid fts es).pulledLog =
      (runDrip ds fid fts es).commitLog ++
        (runDrip ds fid fts es).pending.toList :=
  (dripInv_run ds fid fts es).2.1

/-! ## Claim C2 — display-list bound -/

/-- C2.  Display-list bound: after any event sequence the displayed list has
at most `MAX_DISPLAYED_TRANSACTIONS = 50` entries; each commit prepends the
pending transaction (newest first) and truncates; and — provided the pulls'
fresh ids are pairwise distinct, as `tx-<time>-<random>` ids are meant to
be — after more than 50 commits every commit older than the most recent 50
is absent from the displayed list. -/
theorem display_list_bound (ds : List Transaction) (fid : Nat → String)
    (fts : Nat → Nat) (es : List DripEvent)
    (hInj : Function.Injective fun k => freshIdStr (fts k) (fid k)) :
    (runDrip ds fid fts es).displayed.length ≤ MAX_DISPLAYED_TRANSACTIONS ∧
    (∀ (s : DripState) (tx : Transaction), s.pending = some tx →
      (stepCommit s).displayed =
        (tx :: s.displayed).take MAX_DISPLAYED_TRANSACTIONS) ∧
    (∀ k, k + MAX_DISPLAYED_TRANSACTIONS <
        (runDrip ds fid fts es).commitLog.length →
      (runDrip ds fid fts es).commitLog.getD k default ∉
        (runDrip ds fid fts es).displayed) := by
  obtain ⟨h1, h2, h3, h4⟩ := dripInv_run ds fid fts es
  refine ⟨?_, ?_, ?_⟩
  · rw [h3]
    exact List.length_take_le _ _
  · intro x tx hp
    simp [stepCommit, hp]
  · intro k hk hmem
    have hnodupIds : ((runDrip ds fid fts es).pulledLog.map
        Transaction.id).Nodup := by
      rw [h4]
      exact List.Nodup.map hInj (List.nodup_range _)
    have hpulled : (runDrip ds fid fts es).pulledLog.Nodup :=
      List.Nodup.of_map _ hnodupIds
    rw [h2] at hpulled
    have hcommit : (runDrip ds fid fts es).commitLog.Nodup :=
      hpulled.of_append_left
    have hkn : k < (runDrip ds fid fts es).commitLog.length := by omega
    rw [h3, List.getD_eq_getElem _ default hkn, List.take_reverse] at hmem
    rw [List.mem_reverse] at hmem
    have hmemtake : (runDrip ds fid fts es).commitLog[k] ∈
        (runDrip ds fid fts es).commitLog.take
          ((runDrip ds fid fts es).commitLog.length -
            MAX_DISPLAYED_TRANSACTIONS) := by
      have hklt : k < ((runDrip ds fid fts es).commitLog.take
          ((runDrip ds fid fts es).commitLog.length -
            MAX_DISPLAYED_TRANSACTIONS)).length := by
        simp only [List.length_take]
        omega
      have := List.getElem_take (runDrip ds fid fts es).commitLog
        (i := k) (h := hklt)
      rw [← this]
      exact List.getElem_mem hklt
    exact List.disjoint_take_drop hcommit (le_refl _) hmemtake hmem

/-- An injective fresh-id source for the C2 witness. -/
def repA (k : Nat) : String :=
  ⟨List.replicate k 'a'⟩

theorem repA_freshIdStr_inj :
    Function.Injective fun k => freshIdStr 0 (repA k) := by
  intro a b h
  have h2 := congrArg String.length h
  simp only [freshIdStr, repA, String.length_append] at h2
  have ha : (⟨List.replicate a 'a'⟩ : String).length = a := by
    simp [String.length]
  have hb : (⟨List.replicate b 'a'⟩ : String).length = b := by
    simp [String.length]
  omega

/-- Witness for C2: with an injective fresh-id source and no events, the
display list respects the bound. -/
theorem display_list_bound_witness :
    Function.Injective (fun k => freshIdStr ((fun _ => 0) k) (repA k)) ∧
      (runDrip [] repA (fun _ => 0) []).displayed.length ≤
        MAX_DISPLAYED_TRANSACTIONS :=
  ⟨repA_freshIdStr_inj,
    (display_list_bound [] repA (fun _ => 0) [] repA_freshIdStr_inj).1⟩

/-! ## Claim C3 — commit idempotence -/

/-- C3.  Committing is idempotent: a second `commitTransaction` call finds
the pending slot already cleared and leaves the state unchanged; if the
pending transaction was not already displayed, it occurs exactly once in the
displayed list after the double commit. -/
theorem commit_idempotent :
    (∀ s : DripState, stepCommit (stepCommit s) = stepCommit s) ∧
    (∀ (s : DripState) (tx : Transaction), s.pending = some tx →
      tx ∉ s.displayed →
      (stepCommit (stepCommit s)).displayed.count tx = 1 ∧
      (stepCommit (stepCommit s)).displayed = (stepCommit s).displayed) := by
  have hpair : ∀ s : DripState, stepCommit (stepCommit s) = stepCommit s := by
    intro s
    cases hp : s.pending with
    | none => simp [stepCommit, hp]
    | some tx => simp [stepCommit, hp]
  refine ⟨hpair, ?_⟩
  intro s tx hp hnot
  refine ⟨?_, by rw [hpair]⟩
  rw [hpair]
  simp only [stepCommit, hp]
  have h50 : MAX_DISPLAYED_TRANSACTIONS = 49 + 1 := rfl
  rw [h50, List.take_succ_cons, List.count_cons_self]
  have : (s.displayed.take 49).count tx = 0 := by
    rw [List.count_eq_zero]
    intro hmem
    exact hnot (List.take_subset 49 s.displayed hmem)
  rw [this]

/-- A concrete state with a pending transaction and an empty display list. -/
def c3State : DripState :=
  { initDrip with pending := some default, readyForNext := false }

/-- Witness for C3: double-committing a concrete pending transaction into an
empty display list leaves it displayed exactly once. -/
theorem commit_idempotent_witness :
    c3State.pending = some default ∧
      default ∉ c3State.displayed ∧
      (stepCommit (stepCommit c3State)).displayed.count default = 1 := by
  refine ⟨rfl, by simp [c3State, initDrip], ?_⟩
  exact (commit_idempotent.2 _ default rfl (by simp [c3State, initDrip])).1

/-! ## Claim C8 — settle completion signalled exactly once -/

/-- Invariant of the settling machinery: `onSettled` has fired at most once;
a live interval implies the `hasSettledRef` guard is set; and once the
signal has fired, the interval is gone and the guard is set (so no further
interval can ever be scheduled). -/
def SettleInv (s : SettleState) : Prop :=
  s.settledCount ≤ 1 ∧
  (s.intervalProgress.isSome = true → s.hasSettled = true) ∧
  (s.settledCount = 1 → s.intervalProgress = none) ∧
  (s.settledCount = 1 → s.hasSettled = true)

theorem settleInv_init : SettleInv initSettle := by
  simp [SettleInv, initSettle]

theorem settleInv_step (s : SettleState) (e : SettleEvent)
    (h : SettleInv s) : SettleInv (settleStep s e) := by
  obtain ⟨h1, h2, h3, h4⟩ := h
  cases e with
  | effectSettling =>
    by_cases hs : s.hasSettled
    · simpa [settleStep, hs] using ⟨h1, h2, h3, h4⟩
    · have hc0 : s.settledCount = 0 := by
        by_contra hne
        have hc1 : s.settledCount = 1 := by omega
        exact hs (by simpa using h4 hc1)
      simp [settleStep, hs, SettleInv, hc0]
  | effectOther =>
    refine ⟨h1, by simp [settleStep], by simp [settleStep], h4⟩
  | tick =>
    cases hip : s.intervalProgress with
    | none => simpa [settleStep, hip] using ⟨h1, h2, h3, h4⟩
    | some p =>
      have hset : s.hasSettled = true := h2 (by simp [hip])
      by_cases hge : (1 : Rat) ≤ p + 0.03
      · have hc0 : s.settledCount = 0 := by
          by_contra hne
          have hc1 : s.settledCount = 1 := by omega
          exact Option.noConfusion (hip.symm.trans (h3 hc1))
        simp [settleStep, hip, hge, SettleInv, hc0, hset]
      · simp only [settleStep, hip]
        rw [if_neg hge]
        refine ⟨h1, fun _ => hset, ?_, h4⟩
        intro hc1
        exact absurd (hip.symm.trans (h3 hc1)) (by simp)

theorem settleInv_run (es : List SettleEvent) : SettleInv (runSettle es) := by
  rw [runSettle]
  generalize hs : initSettle = s0
  have h0 : SettleInv s0 := hs ▸ settleInv_init
  clear hs
  induction es generalizing s0 with
  | nil => exact h0
  | cons e es ih => exact ih _ (settleInv_step s0 e h0)

/-- C8.  The completion callback fires exactly once per settling run: over
every sequence of effect runs, cleanups and interval ticks, `onSettled` is
invoked at most once (re-entering the settling effect or re-rendering cannot
re-arm it, since `hasSettledRef` is never reset); and a settling run that
proceeds to full progress (34 ticks of `+0.03` starting from `0` reach `1`)
invokes it exactly once. -/
theorem settle_signalled_once :
    (∀ es : List SettleEvent, (runSettle es).settledCount ≤ 1) ∧
    (runSettle (SettleEvent.effectSettling ::
        List.replicate 34 SettleEvent.tick)).settledCount = 1 := by
  constructor
  · intro es
    exact (settleInv_run es).1
  · norm_num [runSettle, List.replicate, settleStep, initSettle]

/-! ## Claim C9 — static-dataset cycling -/

theorem pullIndex_mod (ds : List Transaction) (h : ds ≠ []) (k : Nat) :
    pullIndex ds k = k % ds.length := by
  have hn : 0 < ds.length := List.length_pos.mpr h
  induction k with
  | zero => simp [pullIndex]
  | succ m ih =>
    rw [pullIndex, ih]
    exact Nat.mod_add_mod m ds.length 1

/-- C9.  Static-dataset cycling: starting from index `0`, the k-th pull of
`getNextTransaction` reads the record at index `k mod n` of the fixed
dataset (n = dataset length), advances the stored index to `(k + 1) mod n`,
and reissues the record with a fresh id (`tx-<now>-<rand>`) and a fresh
timestamp, every other field being that of the stored record (the reissued
transaction is exactly the stored record with only `id` and `timestamp`
replaced). -/
theorem static_cycling (ds : List Transaction) (h : ds ≠ []) (k now : Nat)
    (randStr : String) :
    pullIndex ds k = k % ds.length ∧
    (getNextTransaction ds (pullIndex ds k) now randStr).2 =
      (k + 1) % ds.length ∧
    (getNextTransaction ds (pullIndex ds k) now randStr).1.id =
      freshIdStr now randStr ∧
    (getNextTransaction ds (pullIndex ds k) now randStr).1.timestamp =
      DateV.fromMillis now ∧
    (getNextTransaction ds (pullIndex ds k) now randStr).1 =
      { ds.getD (k % ds.length) default with
          id := freshIdStr now randStr, timestamp := DateV.fromMillis now } := by
  have hidx := pullIndex_mod ds h k
  refine ⟨hidx, ?_, ?_, ?_, ?_⟩
  · rw [getNextTransaction, hidx]
    exact Nat.mod_add_mod k ds.length 1
  · simp [getNextTransaction, freshIdStr]
  · simp [getNextTransaction]
  · rw [hidx]
    simp [getNextTransaction, freshIdStr]

/-- Witness for C9: a concrete one-element dataset, pulled for the fourth
time, reads index `3 mod 1 = 0`. -/
theorem static_cycling_witness :
    (([default] : List Transaction) ≠ []) ∧
      pullIndex [default] 3 = 3 % ([default] : List Transaction).length :=
  ⟨by simp, (static_cycling [default] (by simp) 3 7 "ab").1⟩

/-! ## Claim C4 — retry on 429 -/

/-- C4.  Retry-on-429: with an API key configured, if every attempt receives
HTTP 429 carrying `Retry-After: 2`, then `executeQuery` sleeps exactly
2000 ms before each re-attempt, retries three times (four attempts in all),
and then returns a failure result (`success: false`) with the formatted
error text instead of raising. -/
theorem retry_429 (responses : Nat → HttpResponse) (key : String)
    (hkey : ¬key = "")
    (hresp : ∀ i, i ≤ MAX_RETRIES →
      responses i = .err 429 (some 2) "rate limited") :
    executeQuery (some key) responses =
      (.failure "Allium API error (429): rate limited", [2000, 2000, 2000]) := by
  have h0 := hresp 0 (by norm_num [MAX_RETRIES])
  have h1 := hresp 1 (by norm_num [MAX_RETRIES])
  have h2 := hresp 2 (by norm_num [MAX_RETRIES])
  have h3 := hresp 3 (by norm_num [MAX_RETRIES])
  rw [executeQuery, if_neg hkey]
  rw [executeQueryFrom, h0]
  norm_num [MAX_RETRIES]
  rw [executeQueryFrom, h1]
  norm_num [MAX_RETRIES]
  rw [executeQueryFrom, h2]
  norm_num [MAX_RETRIES]
  rw [executeQueryFrom, h3]
  norm_num [MAX_RETRIES]
  decide

/-- Witness for C4: the constant always-429 response oracle. -/
theorem retry_429_witness :
    (¬("k" : String) = "") ∧
      executeQuery (some "k")
          (fun _ => HttpResponse.err 429 (some 2) "rate limited") =
        (.failure "Allium API error (429): rate limited", [2000, 2000, 2000]) :=
  ⟨by decide,
    retry_429 (fun _ => HttpResponse.err 429 (some 2) "rate limited") "k"
      (by decide) (fun i _ => rfl)⟩

/-! ## Claim C5 — transform cardinality and id derivation -/

theorem dash_append_inj (a : List Char) : ∀ (b r s : List Char),
    ('-' : Char) ∉ a → ('-' : Char) ∉ b →
    a ++ '-' :: r = b ++ '-' :: s → a = b ∧ r = s := by
  induction a with
  | nil =>
    intro b r s _ hb h
    cases b with
    | nil => simpa using h
    | cons c bs =>
      simp only [List.nil_append, List.cons_append, List.cons.injEq] at h
      obtain ⟨hc, -⟩ := h
      exact absurd (by rw [← hc]; exact List.mem_cons_self '-' bs) hb
  | cons x xs ih =>
    intro b r s ha hb h
    cases b with
    | nil =>
      simp only [List.cons_append, List.nil_append, List.cons.injEq] at h
      obtain ⟨hc, -⟩ := h
      exact absurd (by rw [hc]; exact List.mem_cons_self '-' _) ha
    | cons y bs =>
      simp only [List.cons_append, List.cons.injEq] at h
      obtain ⟨hxy, h2⟩ := h
      have ha2 : ('-' : Char) ∉ xs := fun hm => ha (List.mem_cons_of_mem _ hm)
      have hb2 : ('-' : Char) ∉ bs := fun hm => hb (List.mem_cons_of_mem _ hm)
      obtain ⟨h3, h4⟩ := ih bs r s ha2 hb2 h2
      exact ⟨by rw [hxy, h3], h4⟩

theorem generateId_data (e : AlliumLendingEvent) :
    (generateId e).data =
      e.transaction_hash.data ++
        '-' :: (e.action.data ++ '-' :: (sliceLast8 e.wallet).data) := by
  simp [generateId]

theorem generateId_inj_hash (e1 e2 : AlliumLendingEvent)
    (h1 : ('-' : Char) ∉ e1.transaction_hash.data)
    (h2 : ('-' : Char) ∉ e2.transaction_hash.data)
    (heq : generateId e1 = generateId e2) :
    e1.transaction_hash = e2.transaction_hash := by
  have hd := congrArg String.data heq
  rw [generateId_data, generateId_data] at hd
  exact String.ext (dash_append_inj _ _ _ _ h1 h2 hd).1

/-- C5 (amended).  Transform cardinality and id derivation: a remote
response of the form `{data: [...]}` is unwrapped to its event list by
`executeQuery`; every batch of events is transformed one-to-one and in
order; each resulting `Transaction`'s id is the string built from the
event's transaction hash, its action, and the last 8 characters of its
wallet address; and the resulting ids are pairwise distinct *provided* the
events' transaction hashes are pairwise distinct and contain no `-`
character (as hex hashes do) — distinctness does not hold for arbitrary
events, see the counterexample. -/
theorem transform_card_ids (es : List AlliumLendingEvent) :
    (transformEvents es).length = es.length ∧
    (transformEvents es).map Transaction.id = es.map generateId ∧
    (∀ e, generateId e =
      e.transaction_hash ++ "-" ++ e.action ++ "-" ++ sliceLast8 e.wallet) ∧
    executeQuery (some "key") (fun _ => .ok (.obj (some es))) =
      (.success es, []) ∧
    ((es.map (fun e => e.transaction_hash)).Nodup →
      (∀ e ∈ es, ('-' : Char) ∉ e.transaction_hash.data) →
      ((transformEvents es).map Transaction.id).Nodup) := by
  have hmap : (transformEvents es).map Transaction.id = es.map generateId := by
    rw [transformEvents, List.map_map]
    rfl
  refine ⟨by simp [transformEvents], hmap, fun e => rfl, ?_, ?_⟩
  · rw [executeQuery, if_neg (by decide), executeQueryFrom]
    rfl
  · intro hnodup hdash
    rw [hmap]
    have hpair := List.pairwise_map.mp hnodup
    refine List.pairwise_map.mpr (hpair.imp_of_mem ?_)
    intro a b ha hb hne heq
    exact hne (generateId_inj_hash a b (hdash a ha) (hdash b hb) heq)

/-- A raw event template used in the C5 counterexample and witness. -/
def cexEvent (hash : String) : AlliumLendingEvent :=
  { action := "supply"
    chain := "ethereum"
    project := "morpho_blue"
    token_symbol := "USDC"
    usd_amount := 100
    wallet := "0xabcdef12"
    block_timestamp := "2026-02-25T16:19:59"
    transaction_hash := hash }

/-- A 3-event remote batch containing a duplicated event. -/
def cexEvents : List AlliumLendingEvent :=
  [cexEvent "0xaaa", cexEvent "0xaaa", cexEvent "0xbbb"]

/-- Counterexample to C5 as stated: a remote response with 3 events (two of
them identical, as `UNION ALL` can return) produces 3 transactions whose
ids are *not* pairwise distinct. -/
theorem transform_card_ids_cex :
    cexEvents.length = 3 ∧
    (transformEvents cexEvents).length = 3 ∧
    ¬((transformEvents cexEvents).map Transaction.id).Nodup := by
  refine ⟨rfl, rfl, ?_⟩
  decide

/-- A 3-event batch with pairwise distinct, dash-free hashes. -/
def wEvents : List AlliumLendingEvent :=
  [cexEvent "0xaaa1", cexEvent "0xaaa2", cexEvent "0xaaa3"]

/-- Witness for C5 (amended): on a concrete 3-event batch with distinct
dash-free hashes, the three ids are pairwise distinct. -/
theorem transform_card_ids_witness :
    ((wEvents.map (fun e => e.transaction_hash)).Nodup ∧
      (∀ e ∈ wEvents, ('-' : Char) ∉ e.transaction_hash.data)) ∧
      ((transformEvents wEvents).map Transaction.id).Nodup :=
  ⟨⟨by decide, by decide⟩,
    (transform_card_ids wEvents).2.2.2.2 (by decide) (by decide)⟩

/-! ## Claim C10 — transform totality with silent defaults -/

/-- C10.  `transformEvent` is total over arbitrary event field strings and
always yields values in the closed sets (by typing of `ActionType`, `Asset`
and `Network`): an unrecognized action string maps to `supply`, an
unrecognized chain name to `Ethereum`, and an unrecognized token symbol to
`USDC`; no error is reported. -/
theorem transform_total_defaults (a c t : String) (e : AlliumLendingEvent) :
    (jsToLower a ∉ (["supply", "borrow", "repay", "withdraw"] : List String) →
      mapAction a = .supply) ∧
    (jsToLower c ∉ (["ethereum", "base", "arbitrum", "optimism"] : List String) →
      mapNetwork c = .Ethereum) ∧
    (jsToUpper t ∉
        (["USDC", "USDT", "PYUSD", "ETH", "WETH", "WBTC", "DAI", "CBETH",
          "STETH"] : List String) →
      mapAsset t = .USDC) ∧
    (transformEvent e).action = mapAction e.action ∧
    (transformEvent e).asset = mapAsset e.token_symbol ∧
    (transformEvent e).network = mapNetwork e.chain := by
  refine ⟨?_, ?_, ?_, rfl, rfl, rfl⟩
  · intro h
    simp only [List.mem_cons, List.not_mem_nil, or_false, not_or] at h
    obtain ⟨h1, h2, h3, h4⟩ := h
    simp [mapAction, h1, h2, h3, h4]
  · intro h
    simp only [List.mem_cons, List.not_mem_nil, or_false, not_or] at h
    obtain ⟨h1, h2, h3, h4⟩ := h
    simp [mapNetwork, h1, h2, h3, h4]
  · intro h
    simp only [List.mem_cons, List.not_mem_nil, or_false, not_or] at h
    obtain ⟨h1, h2, h3, h4, h5, h6, h7, h8, h9⟩ := h
    simp [mapAsset, h1, h2, h3, h4, h5, h6, h7, h8, h9]

/-- Witness for C10: concrete unrecognized strings map to the defaults. -/
theorem transform_total_defaults_witness :
    (jsToLower "FlashLoan" ∉
        (["supply", "borrow", "repay", "withdraw"] : List String)) ∧
      (jsToLower "solana" ∉
        (["ethereum", "base", "arbitrum", "optimism"] : List String)) ∧
      mapAction "FlashLoan" = ActionType.supply ∧
      mapNetwork "solana" = Network.Ethereum ∧
      mapAsset "doge" = Asset.USDC :=
  ⟨by decide, by decide,
    (transform_total_defaults "FlashLoan" "solana" "doge" default).1 (by decide),
    (transform_total_defaults "FlashLoan" "solana" "doge" default).2.1 (by decide),
    (transform_total_defaults "FlashLoan" "solana" "doge" default).2.2.1
      (by decide)⟩

/-! ## Claim C6 — synthetic generation postconditions -/

theorem jsRound_scaled_bounds (lo hi r : Rat) (a b : Int)
    (ha : (a : Rat) = lo * 100) (hb : (b : Rat) = hi * 100)
    (h0 : 0 ≤ r) (h1 : r < 1) (hle : lo ≤ hi) :
    lo ≤ (jsRound ((r * (hi - lo) + lo) * 100) : Rat) / 100 ∧
    (jsRound ((r * (hi - lo) + lo) * 100) : Rat) / 100 ≤ hi := by
  have hd : 0 ≤ hi - lo := sub_nonneg.mpr hle
  have hm0 : 0 ≤ r * (hi - lo) := mul_nonneg h0 hd
  have hm1 : r * (hi - lo) ≤ 1 * (hi - lo) :=
    mul_le_mul_of_nonneg_right (le_of_lt h1) hd
  have hxlo : lo * 100 ≤ (r * (hi - lo) + lo) * 100 := by nlinarith
  have hxhi : (r * (hi - lo) + lo) * 100 ≤ hi * 100 := by nlinarith
  have hfl : (a : Rat) ≤ (jsRound ((r * (hi - lo) + lo) * 100) : Rat) := by
    rw [jsRound]
    have h2 : a ≤ ⌊(r * (hi - lo) + lo) * 100 + 1 / 2⌋ := by
      apply Int.le_floor.mpr
      rw [ha]
      linarith
    exact_mod_cast h2
  have hfu : (jsRound ((r * (hi - lo) + lo) * 100) : Rat) ≤ (b : Rat) := by
    rw [jsRound]
    have hlt : ⌊(r * (hi - lo) + lo) * 100 + 1 / 2⌋ < b + 1 := by
      apply Int.floor_lt.mpr
      push_cast
      rw [hb]
      linarith
    have h3 : ⌊(r * (hi - lo) + lo) * 100 + 1 / 2⌋ ≤ b := by omega
    exact_mod_cast h3
  constructor
  · rw [ha] at hfl
    linarith
  · rw [hb] at hfu
    linarith

theorem generateAmount_mem_range (asset : Asset) (hA : asset ∈ ASSETS)
    (r : Rat) (h0 : 0 ≤ r) (h1 : r < 1) :
    (amountRange asset).1 ≤ generateAmount asset r ∧
    generateAmount asset r ≤ (amountRange asset).2 := by
  cases asset with
  | USDC =>
    exact jsRound_scaled_bounds 100 500000 r 10000 50000000
      (by norm_num) (by norm_num) h0 h1 (by norm_num)
  | ETH =>
    exact jsRound_scaled_bounds 0.1 100 r 10 10000
      (by norm_num) (by norm_num) h0 h1 (by norm_num)
  | WBTC =>
    exact jsRound_scaled_bounds 0.01 10 r 1 1000
      (by norm_num) (by norm_num) h0 h1 (by norm_num)
  | DAI =>
    exact jsRound_scaled_bounds 100 500000 r 10000 50000000
      (by norm_num) (by norm_num) h0 h1 (by norm_num)
  | USDT =>
    exact jsRound_scaled_bounds 100 500000 r 10000 50000000
      (by norm_num) (by norm_num) h0 h1 (by norm_num)
  | WETH =>
    exact jsRound_scaled_bounds 0.1 100 r 10 10000
      (by norm_num) (by norm_num) h0 h1 (by norm_num)
  | cbETH =>
    exact jsRound_scaled_bounds 0.1 50 r 10 5000
      (by norm_num) (by norm_num) h0 h1 (by norm_num)
  | stETH =>
    exact jsRound_scaled_bounds 0.1 100 r 10 10000
      (by norm_num) (by norm_num) h0 h1 (by norm_num)
  | PYUSD => exact absurd hA (by decide)

theorem collateral_filter_pos (a : Asset) :
    0 < (ASSETS.filter (fun x => x ≠ a)).length := by
  cases a <;> decide

/-- The action drawn by `generateTransaction`. -/
def pickAction (d : MockDraws) : ActionType :=
  ACTIONS.getD (natFloor (d.rAction * ACTIONS.length)) .supply

/-- The asset drawn by `generateTransaction`. -/
def pickAsset (d : MockDraws) : Asset :=
  ASSETS.getD (natFloor (d.rAsset * ASSETS.length)) .USDC

/-- The collateral candidates for a liquidation (`ASSETS` minus the drawn
asset). -/
def collateralChoices (d : MockDraws) : List Asset :=
  ASSETS.filter (fun a => a ≠ pickAsset d)

/-- The collateral asset drawn for a liquidation. -/
def pickCollateral (d : MockDraws) : Asset :=
  (collateralChoices d).getD
    (natFloor (d.rCollateral * (collateralChoices d).length)) .USDC

theorem generateTransaction_action (d : MockDraws) :
    (generateTransaction d).action = pickAction d := by
  by_cases hliq : pickAction d = ActionType.liquidation
  · simp only [pickAction] at hliq
    simp only [generateTransaction, hliq, if_true, pickAction]
  · simp only [pickAction] at hliq
    simp only [generateTransaction, hliq, if_false, pickAction]

theorem generateTransaction_asset (d : MockDraws) :
    (generateTransaction d).asset = pickAsset d := by
  by_cases hliq : pickAction d = ActionType.liquidation
  · simp only [pickAction] at hliq
    simp only [generateTransaction, hliq, if_true, pickAsset]
  · simp only [pickAction] at hliq
    simp only [generateTransaction, hliq, if_false, pickAsset]

theorem generateTransaction_amount (d : MockDraws) :
    (generateTransaction d).amount = generateAmount (pickAsset d) d.rAmount := by
  by_cases hliq : pickAction d = ActionType.liquidation
  · simp only [pickAction] at hliq
    simp only [generateTransaction, hliq, if_true, pickAsset]
  · simp only [pickAction] at hliq
    simp only [generateTransaction, hliq, if_false, pickAsset]

theorem generateTransaction_collateral (d : MockDraws)
    (h : pickAction d = ActionType.liquidation) :
    (generateTransaction d).collateralAsset = some (pickCollateral d) ∧
    (generateTransaction d).collateralAmount =
      some (generateAmount (pickCollateral d) d.rCollAmount) := by
  simp only [pickAction] at h
  simp only [generateTransaction, h, if_true, pickCollateral,
    collateralChoices, pickAsset]
  constructor <;> trivial

/-- C6.  Synthetic generation postconditions: for every valid random draw
(each `Math.random()` result in `[0, 1)`), the generated transaction's
`amount` lies within the configured `[min, max]` range of its asset, and
whenever the action is `liquidation` the transaction carries a
`collateralAsset` different from its `asset` and a `collateralAmount`
within the collateral asset's configured range. -/
theorem mock_generation_postconditions (d : MockDraws) (hv : d.valid) :
    ((amountRange (generateTransaction d).asset).1 ≤
        (generateTransaction d).amount ∧
      (generateTransaction d).amount ≤
        (amountRange (generateTransaction d).asset).2) ∧
    ((generateTransaction d).action = ActionType.liquidation →
      ∃ ca amt,
        (generateTransaction d).collateralAsset = some ca ∧
        (generateTransaction d).collateralAmount = some amt ∧
        ca ≠ (generateTransaction d).asset ∧
        (amountRange ca).1 ≤ amt ∧ amt ≤ (amountRange ca).2) := by
  obtain ⟨hA0, hA1, hS0, hS1, hN0, hN1, hAm0, hAm1, hP0, hP1, hM0, hM1,
    hH0, hH1, hC0, hC1, hCA0, hCA1⟩ := hv
  have hassetMem : pickAsset d ∈ ASSETS :=
    getD_mem_of_lt _ _ _ (natFloor_lt d.rAsset ASSETS.length hS0 hS1 (by decide))
  constructor
  · rw [generateTransaction_asset, generateTransaction_amount]
    exact generateAmount_mem_range _ hassetMem _ hAm0 hAm1
  · intro hact
    rw [generateTransaction_action] at hact
    have hjlt :
        natFloor (d.rCollateral * (collateralChoices d).length) <
          (collateralChoices d).length :=
      natFloor_lt d.rCollateral (collateralChoices d).length hC0 hC1
        (collateral_filter_pos (pickAsset d))
    have hmem := getD_mem_of_lt (collateralChoices d) _ Asset.USDC hjlt
    have hfilter : pickCollateral d ∈ ASSETS.filter (fun a => a ≠ pickAsset d) :=
      hmem
    rw [List.mem_filter] at hfilter
    have hmem2 : pickCollateral d ∈ ASSETS ∧ pickCollateral d ≠ pickAsset d :=
      ⟨hfilter.1, by simpa using hfilter.2⟩
    obtain ⟨hca1, hca2⟩ := generateTransaction_collateral d hact
    refine ⟨pickCollateral d,
      generateAmount (pickCollateral d) d.rCollAmount, hca1, hca2, ?_, ?_, ?_⟩
    · rw [generateTransaction_asset]
      exact hmem2.2
    · exact (generateAmount_mem_range _ hmem2.1 _ hCA0 hCA1).1
    · exact (generateAmount_mem_range _ hmem2.1 _ hCA0 hCA1).2

/-- Concrete draws for the C6 witness: the action draw lands on
`liquidation` (`⌊0.9 * 5⌋ = 4`). -/
def c6Draws : MockDraws :=
  { rAction := 9 / 10
    rAsset := 1 / 2
    rNetwork := 0
    idHexDraws := []
    walletDraws := []
    rAmount := 1 / 2
    rApy := 0
    rMarket := 0
    rHealth := 0
    rCollateral := 1 / 2
    rCollAmount := 1 / 2
    now := 0 }

/-- Witness for C6: the concrete draws are valid and yield a transaction
whose amount respects its asset's range. -/
theorem mock_generation_postconditions_witness :
    c6Draws.valid ∧
      ((amountRange (generateTransaction c6Draws).asset).1 ≤
          (generateTransaction c6Draws).amount ∧
        (generateTransaction c6Draws).amount ≤
          (amountRange (generateTransaction c6Draws).asset).2) :=
  ⟨by norm_num [MockDraws.valid, c6Draws],
    (mock_generation_postconditions c6Draws
      (by norm_num [MockDraws.valid, c6Draws])).1⟩

end LendingViz
